import Mathlib

/-!
Verification of the `XmlBuilder` XML document serializer
(`src/lib/XmlBuilder.js`).

The builder walks a tree of JavaScript values: an object is an element
node (fields `name`, `attributes`, `children`), any other value is a text
leaf.  It accumulates the output into one JavaScript string, starting from
the fixed XML declaration, escaping text and attribute values, and it
periodically stores one character of the accumulator into the instance
field `_c` (a memory-flattening probe driven by the visit counter `_i`).

JavaScript strings are modelled as `List Char`; JavaScript values as the
inductive `JsVal`; the mutable instance fields `_i`/`_c` as an explicit
`BuilderState` threaded through the recursion; a thrown exception as
`Except.error` carrying the message.
-/

set_option maxHeartbeats 1000000

namespace XmlSpec

/-- The double-quote character (written via its code point). -/
def qm : Char := Char.ofNat 34

/-- The apostrophe character (written via its code point). -/
def apos : Char := Char.ofNat 39

/-- Shallow embedding of the JavaScript values the builder can receive:
`null`, `undefined`, strings, (integer) numbers, booleans, arrays, and
plain objects.  A plain object is its ordered list of own enumerable
string-keyed fields, which is exactly what the builder reads (property
access, `_.forOwn`, `_.forEach`, `_.isEmpty`). -/
inductive JsVal : Type where
  | vNull : JsVal
  | vUndef : JsVal
  | vStr : String → JsVal
  | vNum : Int → JsVal
  | vBool : Bool → JsVal
  | vArr : List JsVal → JsVal
  | vObj : List (String × JsVal) → JsVal

/-- JavaScript property access `obj.key` on the field list of an object:
the stored value, or `undefined` when the key is absent. -/
def getField (fields : List (String × JsVal)) (key : String) : JsVal :=
  match fields with
  | [] => .vUndef
  | (k, v) :: rest => if k = key then v else getField rest key

/-- lodash `_.isObject`: true exactly for arrays and plain objects among
the modelled values (`typeof` is `"object"` and the value is not `null`). -/
def isObject : JsVal → Bool
  | .vArr _ => true
  | .vObj _ => true
  | _ => false

/-- lodash `_.isNil`: true for `null` and `undefined`. -/
def isNil : JsVal → Bool
  | .vNull => true
  | .vUndef => true
  | _ => false

/-- JavaScript truthiness, used by the guard `if (!node.name)`:
`null`, `undefined`, the empty string, `0` and `false` are falsy;
every array and object is truthy. -/
def truthy : JsVal → Bool
  | .vNull => false
  | .vUndef => false
  | .vStr s => !(s == "")
  | .vNum n => !(n == 0)
  | .vBool b => b
  | .vArr _ => true
  | .vObj _ => true

/-- lodash `_.isEmpty` on the modelled values: nil values, numbers and
booleans are empty; a string, array or object is empty when it has no
characters, elements or fields. -/
def isEmpty : JsVal → Bool
  | .vNull => true
  | .vUndef => true
  | .vStr s => s == ""
  | .vNum _ => true
  | .vBool _ => true
  | .vArr xs => xs.isEmpty
  | .vObj fields => fields.isEmpty

/-- The sequence of values visited by `_.forEach(node.children, ...)`:
array elements in order; the characters of a string, each as a
one-character string; the field values of a plain object; nothing for
nil values, numbers and booleans. -/
def childList : JsVal → List JsVal
  | .vStr s => s.toList.map (fun c => .vStr (String.mk [c]))
  | .vArr xs => xs
  | .vObj fields => fields.map Prod.snd
  | _ => []

/-- The key/value pairs visited by `_.forOwn(node.attributes, ...)`:
the fields of a plain object; a string or array contributes its
characters or elements under their decimal index keys; nil values,
numbers and booleans contribute nothing. -/
def ownPairs : JsVal → List (String × JsVal)
  | .vObj fields => fields
  | .vStr s => s.toList.enum.map (fun p => (toString p.1, .vStr (String.mk [p.2])))
  | .vArr xs => xs.enum.map (fun p => (toString p.1, p.2))
  | _ => []

mutual

/-- JavaScript `ToString` (as used by `+=`, template literals and
`Array.prototype.toString`): `"null"` / `"undefined"` for nil values,
decimal for numbers, `"true"`/`"false"` for booleans, comma-joined
element strings for arrays (nil elements joining as empty), and
`"[object Object]"` for plain objects. -/
def jsToString : JsVal → List Char
  | .vNull => "null".toList
  | .vUndef => "undefined".toList
  | .vStr s => s.toList
  | .vNum n => (toString n).toList
  | .vBool b => if b then "true".toList else "false".toList
  | .vArr xs => List.intercalate [','] (arrStrings xs)
  | .vObj _ => "[object Object]".toList

/-- The element strings joined by `Array.prototype.toString`. -/
def arrStrings : List JsVal → List (List Char)
  | [] => []
  | c :: r => (if isNil c then [] else jsToString c) :: arrStrings r

end

/-- One global single-character replacement, the meaning of
`String.prototype.replace` with a one-character global regex. -/
def replaceChar (c : Char) (rep : List Char) : List Char → List Char
  | [] => []
  | x :: rest => (if x = c then rep else [x]) ++ replaceChar c rep rest

/-- The five replacement chains of `_escapeString`, in source order:
`&` first, then the double quote, the apostrophe, `<`, `>`. -/
def escapeChars (l : List Char) : List Char :=
  replaceChar '>' ("&gt;".toList)
    (replaceChar '<' ("&lt;".toList)
      (replaceChar apos ("&apos;".toList)
        (replaceChar qm ("&quot;".toList)
          (replaceChar '&' ("&amp;".toList) l))))

/-- Shallow embedding of `XmlBuilder._escapeString`: a nil value is
returned unchanged; any other value is converted with `toString()` and
run through the five replacements. -/
def escapeString (value : JsVal) : JsVal :=
  if isNil value then value
  else .vStr (String.mk (escapeChars (jsToString value)))

/-- The text appended for one attribute by the `_.forOwn` callback in
`_build`: the template literal `` ` ${name}="${this._escapeString(value)}"` ``
(a nil escaped value is stringified by the template as `"null"` /
`"undefined"`). -/
def attrBlock (p : String × JsVal) : List Char :=
  ' ' :: p.1.toList ++ '=' :: qm :: jsToString (escapeString p.2) ++ [qm]

/-- One step of the attribute loop: append `attrBlock` to the accumulator. -/
def attrStep (xml : List Char) (p : String × JsVal) : List Char :=
  xml ++ attrBlock p

mutual

/-- Size measure for the builder's recursion: strings count their length
so that the one-character text leaves produced by iterating a string
child stay below their parent. -/
def jsSize : JsVal → Nat
  | .vNull => 1
  | .vUndef => 1
  | .vStr s => 1 + s.length
  | .vNum _ => 1
  | .vBool _ => 1
  | .vArr xs => 1 + jsSizeL xs
  | .vObj fields => 1 + jsSizeF fields

/-- Total size of a list of values. -/
def jsSizeL : List JsVal → Nat
  | [] => 0
  | c :: r => jsSize c + jsSizeL r

/-- Total size of the values of a field list. -/
def jsSizeF : List (String × JsVal) → Nat
  | [] => 0
  | (_, v) :: r => jsSize v + jsSizeF r

end

/-- Maximum size of a list of values (0 for the empty list). -/
def supSize : List JsVal → Nat
  | [] => 0
  | c :: r => max (jsSize c) (supSize r)

instance {ε α : Type} [DecidableEq ε] [DecidableEq α] : DecidableEq (Except ε α) := fun a b =>
  match a, b with
  | .ok x, .ok y =>
    if h : x = y then isTrue (by rw [h]) else isFalse (by intro hc; cases hc; exact h rfl)
  | .error x, .error y =>
    if h : x = y then isTrue (by rw [h]) else isFalse (by intro hc; cases hc; exact h rfl)
  | .ok _, .error _ => isFalse (by intro hc; cases hc)
  | .error _, .ok _ => isFalse (by intro hc; cases hc)

theorem jsSize_pos : ∀ v, 1 ≤ jsSize v := by
  intro v
  cases v <;> simp [jsSize]

theorem jsSizeL_mem_le {c : JsVal} {xs : List JsVal} (h : c ∈ xs) :
    jsSize c ≤ jsSizeL xs := by
  induction xs with
  | nil => cases h
  | cons x r ih =>
    rcases List.mem_cons.mp h with h1 | h1
    · subst h1; simp [jsSizeL]
    · have := ih h1; simp [jsSizeL]; omega

theorem jsSizeF_mem_le {p : String × JsVal} {fields : List (String × JsVal)}
    (h : p ∈ fields) : jsSize p.2 ≤ jsSizeF fields := by
  induction fields with
  | nil => cases h
  | cons q r ih =>
    rcases List.mem_cons.mp h with h1 | h1
    · subst h1
      obtain ⟨k, v⟩ := p
      simp [jsSizeF]
    · have := ih h1
      obtain ⟨k, v⟩ := q
      simp only [jsSizeF]
      omega

theorem childList_size_le {v c : JsVal} (h : c ∈ childList v) :
    jsSize c ≤ jsSize v := by
  cases v with
  | vStr s =>
    simp [childList] at h
    obtain ⟨ch, hch, rfl⟩ := h
    have hne : s.toList ≠ [] := List.ne_nil_of_mem hch
    have hpos : 1 ≤ s.toList.length := List.length_pos.mpr hne
    have hlen : s.length = s.toList.length := rfl
    have h1 : (String.mk [ch]).length = 1 := rfl
    simp only [jsSize, h1, hlen]
    omega
  | vArr xs =>
    simp [childList] at h
    have := jsSizeL_mem_le h
    simp [jsSize]; omega
  | vObj fields =>
    simp [childList] at h
    obtain ⟨k, hk⟩ := h
    have := jsSizeF_mem_le hk
    simp [jsSize] at *; omega
  | vNull => simp [childList] at h
  | vUndef => simp [childList] at h
  | vNum n => simp [childList] at h
  | vBool b => simp [childList] at h

theorem supSize_le {cs : List JsVal} {B : Nat}
    (h : ∀ c ∈ cs, jsSize c ≤ B) : supSize cs ≤ B := by
  induction cs with
  | nil => simp [supSize]
  | cons c r ih =>
    simp [supSize]
    exact ⟨h c (by simp), ih (fun x hx => h x (by simp [hx]))⟩

theorem le_supSize_of_mem {c : JsVal} {cs : List JsVal} (h : c ∈ cs) :
    jsSize c ≤ supSize cs := by
  induction cs with
  | nil => cases h
  | cons x r ih =>
    rcases List.mem_cons.mp h with h1 | h1
    · subst h1; simp [supSize]
    · have := ih h1; simp [supSize]; omega

theorem getField_size_cases (fields : List (String × JsVal)) (key : String) :
    getField fields key = .vUndef ∨ jsSize (getField fields key) ≤ jsSizeF fields := by
  induction fields with
  | nil => left; rfl
  | cons q r ih =>
    obtain ⟨k, v⟩ := q
    by_cases hk : k = key
    · right; simp [getField, hk, jsSizeF]
    · rcases ih with h | h
      · left; simpa [getField, hk] using h
      · right; simp [getField, hk, jsSizeF]; omega

theorem supSize_childList_getField_lt (fields : List (String × JsVal)) (key : String) :
    supSize (childList (getField fields key)) < jsSize (.vObj fields) := by
  rcases getField_size_cases fields key with h | h
  · rw [h]
    simp [childList, supSize, jsSize]
  · have hsub : supSize (childList (getField fields key)) ≤ jsSize (getField fields key) :=
      supSize_le (fun c hc => childList_size_le hc)
    simp [jsSize]; omega

/-- The mutable instance state of an `XmlBuilder`: the visit counter `_i`
and the flatten-probe character `_c` (`none` while still undefined). -/
structure BuilderState : Type where
  i : Nat
  c : Option Char
deriving DecidableEq

/-- The flatten probe at the top of `_build`: on every visit where the
old counter is divisible by 100000, store the first character of the
accumulator (or `undefined` when it is empty) into `_c`; always increment
the counter. -/
def probe (st : BuilderState) (xml : List Char) : BuilderState :=
  if st.i % 100000 = 0 then { i := st.i + 1, c := xml.head? }
  else { i := st.i + 1, c := st.c }

mutual

/-- Shallow embedding of `XmlBuilder._build`: run the flatten probe;
an object (or array) is an element node — its `name` must be truthy,
its attributes are appended by the `_.forOwn` loop, and it is
self-closed when `_.isEmpty(node.children)`, otherwise the children are
rendered in order between an opening and an explicit closing tag; any
other value is a text leaf appended through `_escapeString`. -/
def buildNode (node : JsVal) (xml : List Char) (st : BuilderState) :
    Except String (List Char × BuilderState) :=
  let st1 := probe st xml
  match node with
  | .vObj fields =>
    if truthy (getField fields "name") then
      let xml1 := xml ++ '<' :: jsToString (getField fields "name")
      let xml2 := (ownPairs (getField fields "attributes")).foldl attrStep xml1
      if isEmpty (getField fields "children") then
        .ok (xml2 ++ "/>".toList, st1)
      else
        match buildChildren (childList (getField fields "children")) (xml2 ++ ['>']) st1 with
        | .ok (xml3, st2) =>
          .ok (xml3 ++ "</".toList ++ jsToString (getField fields "name") ++ ['>'], st2)
        | .error e => .error e
    else .error "XML node does not have name"
  | .vArr _ => .error "XML node does not have name"
  | _ => .ok (xml ++ jsToString (escapeString node), st1)
termination_by (jsSize node, 0)
decreasing_by
  apply Prod.Lex.left
  exact supSize_childList_getField_lt fields "children"

/-- The `_.forEach(node.children, child => xml = this._build(child, xml))`
loop: build each child in order, threading the accumulator and the state,
aborting on the first error. -/
def buildChildren (cs : List JsVal) (xml : List Char) (st : BuilderState) :
    Except String (List Char × BuilderState) :=
  match cs with
  | [] => .ok (xml, st)
  | c :: rest =>
    match buildNode c xml st with
    | .ok (xml', st') => buildChildren rest xml' st'
    | .error e => .error e
termination_by (supSize cs, cs.length + 1)
decreasing_by
  · rcases Nat.eq_or_lt_of_le (le_supSize_of_mem (List.mem_cons_self c r)) with h | h
    · rw [h]; exact Prod.Lex.right _ (by omega)
    · exact Prod.Lex.left _ _ h
  · rcases Nat.eq_or_lt_of_le (show supSize r ≤ supSize (c :: r) by simp [supSize]) with h | h
    · rw [h]; exact Prod.Lex.right _ (by simp)
    · exact Prod.Lex.left _ _ h

end

/-- The fixed XML declaration that starts every document. -/
def xmlDecl : List Char :=
  "<?xml version=\"1.0\" encoding=\"UTF-8\" standalone=\"yes\"?>".toList

/-- Shallow embedding of the public `XmlBuilder.build` method on an
instance whose current state is `st`: reset the visit counter to `0`
(the probe character is untouched) and run `_build` on the declaration. -/
def build (st : BuilderState) (node : JsVal) :
    Except String (List Char × BuilderState) :=
  buildNode node xmlDecl { i := 0, c := st.c }

/-- The string returned by `build` on a freshly constructed `XmlBuilder`. -/
def buildStr (node : JsVal) : Except String (List Char) :=
  (build { i := 0, c := none } node).map Prod.fst

/-- The concatenation of the attribute blocks of a pair list, in order. -/
def attrsConcat : List (String × JsVal) → List Char
  | [] => []
  | p :: r => attrBlock p ++ attrsConcat r

/-- The opening-tag text of an element node (without the closing `>` or
`/>`): `<`, the stringified name, then the attribute blocks. -/
def openTag (fields : List (String × JsVal)) : List Char :=
  '<' :: jsToString (getField fields "name") ++
    attrsConcat (ownPairs (getField fields "attributes"))

mutual

/-- The text contributed by one node, without the accumulator and the
instance state: the compositional reading of `_build`. -/
def render : JsVal → Except String (List Char)
  | .vObj fields =>
    if truthy (getField fields "name") then
      if isEmpty (getField fields "children") then
        .ok (openTag fields ++ "/>".toList)
      else
        match renderChildren (childList (getField fields "children")) with
        | .ok inner =>
          .ok (openTag fields ++ '>' :: inner ++
            "</".toList ++ jsToString (getField fields "name") ++ ['>'])
        | .error e => .error e
    else .error "XML node does not have name"
  | .vArr _ => .error "XML node does not have name"
  | node => .ok (jsToString (escapeString node))
termination_by node => (jsSize node, 0)
decreasing_by
  apply Prod.Lex.left
  exact supSize_childList_getField_lt fields "children"

/-- The concatenated texts of a child list, aborting on the first error. -/
def renderChildren : List JsVal → Except String (List Char)
  | [] => .ok []
  | c :: rest =>
    match render c with
    | .ok t =>
      match renderChildren rest with
      | .ok ts => .ok (t ++ ts)
      | .error e => .error e
    | .error e => .error e
termination_by cs => (supSize cs, cs.length + 1)
decreasing_by
  · rcases Nat.eq_or_lt_of_le (le_supSize_of_mem (List.mem_cons_self c r)) with h | h
    · rw [h]; exact Prod.Lex.right _ (by omega)
    · exact Prod.Lex.left _ _ h
  · rcases Nat.eq_or_lt_of_le (show supSize r ≤ supSize (c :: r) by simp [supSize]) with h | h
    · rw [h]; exact Prod.Lex.right _ (by simp)
    · exact Prod.Lex.left _ _ h

end

mutual

/-- A node that makes the traversal throw: an object whose `name` field
is falsy, an array (its `name` access yields `undefined`), or an element
whose child sequence contains such a node. -/
def hasBadNode : JsVal → Bool
  | .vObj fields =>
    !truthy (getField fields "name") ||
      hasBadList (childList (getField fields "children"))
  | .vArr _ => true
  | _ => false
termination_by node => (jsSize node, 0)
decreasing_by
  apply Prod.Lex.left
  exact supSize_childList_getField_lt fields "children"

/-- Some node of the list is bad. -/
def hasBadList : List JsVal → Bool
  | [] => false
  | c :: rest => hasBadNode c || hasBadList rest
termination_by cs => (supSize cs, cs.length + 1)
decreasing_by
  · rcases Nat.eq_or_lt_of_le (le_supSize_of_mem (List.mem_cons_self c r)) with h | h
    · rw [h]; exact Prod.Lex.right _ (by omega)
    · exact Prod.Lex.left _ _ h
  · rcases Nat.eq_or_lt_of_le (show supSize r ≤ supSize (c :: r) by simp [supSize]) with h | h
    · rw [h]; exact Prod.Lex.right _ (by simp)
    · exact Prod.Lex.left _ _ h

end

theorem except_map_ok {α β ε : Type} (f : α → β) (a : α) :
    (Except.ok a : Except ε α).map f = .ok (f a) := rfl

theorem except_map_error {α β ε : Type} (f : α → β) (e : ε) :
    (Except.error e : Except ε α).map f = .error e := rfl

theorem except_map_eq_error {α β ε : Type} {X : Except ε α} {f : α → β} {e : ε} :
    X.map f = .error e ↔ X = .error e := by
  cases X <;> simp [Except.map]

theorem except_map_eq_ok {α β ε : Type} {X : Except ε α} {f : α → β} {b : β} :
    X.map f = .ok b ↔ ∃ a, X = .ok a ∧ f a = b := by
  cases X <;> simp [Except.map]

theorem foldl_attrStep (ps : List (String × JsVal)) :
    ∀ xml, ps.foldl attrStep xml = xml ++ attrsConcat ps := by
  induction ps with
  | nil => intro xml; simp [attrsConcat]
  | cons p r ih =>
    intro xml
    simp [List.foldl, attrsConcat, attrStep, ih]

theorem childList_eq_nil_of_isEmpty {v : JsVal} (h : isEmpty v = true) :
    childList v = [] := by
  cases v <;> simp_all [isEmpty, childList]

theorem buildNode_text (node : JsVal) (h : isObject node = false) (xml : List Char)
    (st : BuilderState) :
    buildNode node xml st = .ok (xml ++ jsToString (escapeString node), probe st xml) := by
  cases node <;> simp_all [isObject] <;> rw [buildNode] <;> simp

theorem buildNode_vArr (xs : List JsVal) (xml : List Char) (st : BuilderState) :
    buildNode (.vArr xs) xml st = .error "XML node does not have name" := by
  rw [buildNode]

theorem buildNode_vObj (fields : List (String × JsVal)) (xml : List Char)
    (st : BuilderState) :
    buildNode (.vObj fields) xml st =
      if truthy (getField fields "name") then
        if isEmpty (getField fields "children") then
          .ok (xml ++ openTag fields ++ "/>".toList, probe st xml)
        else
          match buildChildren (childList (getField fields "children"))
              (xml ++ openTag fields ++ ['>']) (probe st xml) with
          | .ok (xml3, st2) =>
            .ok (xml3 ++ "</".toList ++ jsToString (getField fields "name") ++ ['>'], st2)
          | .error e => .error e
      else .error "XML node does not have name" := by
  rw [buildNode]
  simp only [foldl_attrStep, openTag, List.append_assoc, List.cons_append]

theorem render_text (node : JsVal) (h : isObject node = false) :
    render node = .ok (jsToString (escapeString node)) := by
  cases node <;> simp_all [isObject] <;> rw [render] <;> simp

theorem render_vArr (xs : List JsVal) :
    render (.vArr xs) = .error "XML node does not have name" := by
  rw [render]

theorem render_vObj (fields : List (String × JsVal)) :
    render (.vObj fields) =
      if truthy (getField fields "name") then
        if isEmpty (getField fields "children") then
          .ok (openTag fields ++ "/>".toList)
        else
          match renderChildren (childList (getField fields "children")) with
          | .ok inner =>
            .ok (openTag fields ++ '>' :: inner ++
              "</".toList ++ jsToString (getField fields "name") ++ ['>'])
          | .error e => .error e
      else .error "XML node does not have name" := by
  rw [render]

theorem hasBadNode_vObj (fields : List (String × JsVal)) :
    hasBadNode (.vObj fields) =
      (!truthy (getField fields "name") ||
        hasBadList (childList (getField fields "children"))) := by
  rw [hasBadNode]

theorem bridge_children (cs : List JsVal)
    (H : ∀ c ∈ cs, ∀ xml st,
      (buildNode c xml st).map Prod.fst = (render c).map (fun t => xml ++ t)) :
    ∀ xml st, (buildChildren cs xml st).map Prod.fst
      = (renderChildren cs).map (fun t => xml ++ t) := by
  induction cs with
  | nil =>
    intro xml st
    rw [buildChildren, renderChildren]
    simp [Except.map]
  | cons c r ih =>
    intro xml st
    rw [buildChildren, renderChildren]
    have hc := H c (List.mem_cons_self c r) xml st
    cases hrc : render c with
    | error e =>
      rw [hrc] at hc
      rw [except_map_error, except_map_eq_error] at hc
      rw [hc]
      simp [Except.map]
    | ok t =>
      rw [hrc] at hc
      rw [except_map_ok, except_map_eq_ok] at hc
      obtain ⟨⟨x1, s1⟩, hb, hfst⟩ := hc
      simp only at hfst
      subst hfst
      rw [hb]
      have ihr := ih (fun c hcm => H c (List.mem_cons_of_mem _ hcm)) (xml ++ t) s1
      simp only []
      rw [ihr]
      cases hrr : renderChildren r <;> simp [Except.map, List.append_assoc]

theorem bridge_aux : ∀ n node, jsSize node ≤ n → ∀ xml st,
    (buildNode node xml st).map Prod.fst = (render node).map (fun t => xml ++ t) := by
  intro n
  induction n using Nat.strong_induction_on with
  | _ n ih =>
    intro node hn xml st
    cases node with
    | vNull =>
      rw [buildNode_text, render_text] <;> simp [isObject, Except.map]
    | vUndef =>
      rw [buildNode_text, render_text] <;> simp [isObject, Except.map]
    | vStr s =>
      rw [buildNode_text, render_text] <;> simp [isObject, Except.map]
    | vNum m =>
      rw [buildNode_text, render_text] <;> simp [isObject, Except.map]
    | vBool b =>
      rw [buildNode_text, render_text] <;> simp [isObject, Except.map]
    | vArr xs =>
      rw [buildNode_vArr, render_vArr]
      simp [Except.map]
    | vObj fields =>
      rw [buildNode_vObj, render_vObj]
      by_cases hname : truthy (getField fields "name") = true
      · simp only [hname, if_true]
        by_cases hemp : isEmpty (getField fields "children") = true
        · simp [hemp, Except.map, List.append_assoc]
        · simp only [hemp, if_false, Bool.false_eq_true]
          have hch : ∀ c ∈ childList (getField fields "children"), ∀ xml' st',
              (buildNode c xml' st').map Prod.fst
                = (render c).map (fun t => xml' ++ t) := by
            intro c hcm xml' st'
            have h1 : jsSize c ≤ supSize (childList (getField fields "children")) :=
              le_supSize_of_mem hcm
            have h2 := supSize_childList_getField_lt fields "children"
            exact ih (jsSize c) (by omega) c le_rfl xml' st'
          have hcs := bridge_children _ hch (xml ++ openTag fields ++ ['>']) (probe st xml)
          cases hrr : renderChildren (childList (getField fields "children")) with
          | error e =>
            rw [hrr] at hcs
            rw [except_map_error, except_map_eq_error] at hcs
            rw [hcs]
            simp [Except.map]
          | ok ts =>
            rw [hrr] at hcs
            rw [except_map_ok, except_map_eq_ok] at hcs
            obtain ⟨⟨x3, s3⟩, hb, hfst⟩ := hcs
            simp only at hfst
            subst hfst
            rw [hb]
            simp [Except.map, List.append_assoc]
      · simp [hname, Except.map]

theorem bridge (node : JsVal) (xml : List Char) (st : BuilderState) :
    (buildNode node xml st).map Prod.fst = (render node).map (fun t => xml ++ t) :=
  bridge_aux (jsSize node) node le_rfl xml st

theorem renderChildren_error_spec (cs : List JsVal)
    (H : ∀ c ∈ cs,
      (∀ e, render c = .error e → e = "XML node does not have name") ∧
      (hasBadNode c = true ↔ ∃ e, render c = .error e)) :
    (∀ e, renderChildren cs = .error e → e = "XML node does not have name") ∧
    (hasBadList cs = true ↔ ∃ e, renderChildren cs = .error e) := by
  induction cs with
  | nil =>
    rw [renderChildren, hasBadList]
    simp
  | cons c r ih =>
    rw [renderChildren, hasBadList]
    have hc := H c (List.mem_cons_self c r)
    have ihr := ih (fun c hcm => H c (List.mem_cons_of_mem _ hcm))
    cases hrc : render c with
    | error e =>
      have hbad : hasBadNode c = true := hc.2.mpr ⟨e, hrc⟩
      constructor
      · intro e' he'
        simp at he'
        subst he'
        exact hc.1 e hrc
      · simp [hbad]
    | ok t =>
      have hgood : hasBadNode c = false := by
        by_contra hcon
        rw [Bool.not_eq_false] at hcon
        obtain ⟨e, he⟩ := hc.2.mp hcon
        rw [hrc] at he
        cases he
      cases hrr : renderChildren r with
      | error e =>
        rw [hrr] at ihr
        constructor
        · intro e' he'
          simp at he'
          subst he'
          exact ihr.1 e rfl
        · simp [hgood, ihr.2]
      | ok ts =>
        rw [hrr] at ihr
        simp [hgood, ihr.2]

theorem render_error_aux : ∀ n node, jsSize node ≤ n →
    (∀ e, render node = .error e → e = "XML node does not have name") ∧
    (hasBadNode node = true ↔ ∃ e, render node = .error e) := by
  intro n
  induction n using Nat.strong_induction_on with
  | _ n ih =>
    intro node hn
    cases node with
    | vNull => rw [render_text .vNull rfl, hasBadNode] <;> simp
    | vUndef => rw [render_text .vUndef rfl, hasBadNode] <;> simp
    | vStr s => rw [render_text (.vStr s) rfl, hasBadNode] <;> simp
    | vNum m => rw [render_text (.vNum m) rfl, hasBadNode] <;> simp
    | vBool b => rw [render_text (.vBool b) rfl, hasBadNode] <;> simp
    | vArr xs => rw [render_vArr, hasBadNode]; simp
    | vObj fields =>
      rw [render_vObj, hasBadNode_vObj]
      by_cases hname : truthy (getField fields "name") = true
      · simp only [hname, if_true, Bool.not_true, Bool.false_or]
        by_cases hemp : isEmpty (getField fields "children") = true
        · rw [childList_eq_nil_of_isEmpty hemp, hasBadList]
          simp [hemp]
        · simp only [hemp, if_false, Bool.false_eq_true]
          have hch : ∀ c ∈ childList (getField fields "children"),
              (∀ e, render c = .error e → e = "XML node does not have name") ∧
              (hasBadNode c = true ↔ ∃ e, render c = .error e) := by
            intro c hcm
            have h1 : jsSize c ≤ supSize (childList (getField fields "children")) :=
              le_supSize_of_mem hcm
            have h2 := supSize_childList_getField_lt fields "children"
            exact ih (jsSize c) (by omega) c le_rfl
          have hcs := renderChildren_error_spec _ hch
          cases hrr : renderChildren (childList (getField fields "children")) with
          | error e =>
            rw [hrr] at hcs
            constructor
            · intro e' he'
              simp at he'
              subst he'
              exact hcs.1 e rfl
            · simp [hcs.2]
          | ok ts =>
            rw [hrr] at hcs
            simp [hcs.2]
      · simp [hname]

theorem render_error_spec (node : JsVal) :
    (∀ e, render node = .error e → e = "XML node does not have name") ∧
    (hasBadNode node = true ↔ ∃ e, render node = .error e) :=
  render_error_aux (jsSize node) node le_rfl

/-- The per-character reading of the escape: each of the five special
characters becomes its entity, every other character is unchanged. -/
def escChar (c : Char) : List Char :=
  if c = '&' then "&amp;".toList
  else if c = qm then "&quot;".toList
  else if c = apos then "&apos;".toList
  else if c = '<' then "&lt;".toList
  else if c = '>' then "&gt;".toList
  else [c]

/-- Concatenation of the per-character escapes. -/
def escAll : List Char → List Char
  | [] => []
  | c :: r => escChar c ++ escAll r

theorem replaceChar_append (c : Char) (rep : List Char) :
    ∀ a b, replaceChar c rep (a ++ b)
      = replaceChar c rep a ++ replaceChar c rep b := by
  intro a b
  induction a with
  | nil => simp [replaceChar]
  | cons x r ih => simp [replaceChar, ih]

theorem escapeChars_append (a b : List Char) :
    escapeChars (a ++ b) = escapeChars a ++ escapeChars b := by
  simp [escapeChars, replaceChar_append]

theorem escapeChars_single (c : Char) : escapeChars [c] = escChar c := by
  by_cases h1 : c = '&'
  · subst h1; decide
  by_cases h2 : c = qm
  · subst h2; decide
  by_cases h3 : c = apos
  · subst h3; decide
  by_cases h4 : c = '<'
  · subst h4; decide
  by_cases h5 : c = '>'
  · subst h5; decide
  simp [escapeChars, replaceChar, escChar, h1, h2, h3, h4, h5]

theorem escapeChars_eq_escAll (l : List Char) : escapeChars l = escAll l := by
  induction l with
  | nil => rfl
  | cons c r ih =>
    rw [show c :: r = [c] ++ r from rfl, escapeChars_append, ih,
      escapeChars_single]
    rfl

/-- Modelled from the spec: XML-unescaping, the inverse direction the
spec's round-trip law refers to (the source repository contains no
unescaper).  A left-to-right scan replacing each leading entity
reference `&amp;` `&quot;` `&apos;` `&lt;` `&gt;` with its character and
copying every other character. -/
def unescapeChars : List Char → List Char
  | '&' :: 'a' :: 'm' :: 'p' :: ';' :: rest => '&' :: unescapeChars rest
  | '&' :: 'q' :: 'u' :: 'o' :: 't' :: ';' :: rest => qm :: unescapeChars rest
  | '&' :: 'a' :: 'p' :: 'o' :: 's' :: ';' :: rest => apos :: unescapeChars rest
  | '&' :: 'l' :: 't' :: ';' :: rest => '<' :: unescapeChars rest
  | '&' :: 'g' :: 't' :: ';' :: rest => '>' :: unescapeChars rest
  | c :: rest => c :: unescapeChars rest
  | [] => []

theorem unescape_cons_plain (c : Char) (l : List Char) (h : c ≠ '&') :
    unescapeChars (c :: l) = c :: unescapeChars l := by
  rw [unescapeChars.eq_def]
  split
  · rename_i heq; injection heq with h1 _; exact absurd h1 h
  · rename_i heq; injection heq with h1 _; exact absurd h1 h
  · rename_i heq; injection heq with h1 _; exact absurd h1 h
  · rename_i heq; injection heq with h1 _; exact absurd h1 h
  · rename_i heq; injection heq with h1 _; exact absurd h1 h
  · rename_i heq; injection heq with h1 h2; rw [h1, h2]
  · rename_i heq; cases heq

theorem unescape_escAll (l : List Char) : unescapeChars (escAll l) = l := by
  induction l with
  | nil => rfl
  | cons c r ih =>
    rw [escAll]
    by_cases h1 : c = '&'
    · subst h1
      rw [show escChar '&' = "&amp;".toList from rfl]
      rw [show ("&amp;".toList ++ escAll r)
        = '&' :: 'a' :: 'm' :: 'p' :: ';' :: escAll r from rfl]
      rw [unescapeChars, ih]
    by_cases h2 : c = qm
    · subst h2
      rw [show escChar qm = "&quot;".toList from by decide]
      rw [show ("&quot;".toList ++ escAll r)
        = '&' :: 'q' :: 'u' :: 'o' :: 't' :: ';' :: escAll r from rfl]
      rw [unescapeChars, ih]
    by_cases h3 : c = apos
    · subst h3
      rw [show escChar apos = "&apos;".toList from by decide]
      rw [show ("&apos;".toList ++ escAll r)
        = '&' :: 'a' :: 'p' :: 'o' :: 's' :: ';' :: escAll r from rfl]
      rw [unescapeChars, ih]
    by_cases h4 : c = '<'
    · subst h4
      rw [show escChar '<' = "&lt;".toList from by decide]
      rw [show ("&lt;".toList ++ escAll r)
        = '&' :: 'l' :: 't' :: ';' :: escAll r from rfl]
      rw [unescapeChars, ih]
    by_cases h5 : c = '>'
    · subst h5
      rw [show escChar '>' = "&gt;".toList from by decide]
      rw [show ("&gt;".toList ++ escAll r)
        = '&' :: 'g' :: 't' :: ';' :: escAll r from rfl]
      rw [unescapeChars, ih]
    rw [show escChar c = [c] from by simp [escChar, h1, h2, h3, h4, h5]]
    rw [show [c] ++ escAll r = c :: escAll r from rfl]
    rw [unescape_cons_plain c _ h1, ih]

theorem unescape_escapeChars (l : List Char) :
    unescapeChars (escapeChars l) = l := by
  rw [escapeChars_eq_escAll]
  exact unescape_escAll l

theorem build_eq_render (st : BuilderState) (node : JsVal) :
    (build st node).map Prod.fst = (render node).map (fun t => xmlDecl ++ t) := by
  rw [build]
  exact bridge node xmlDecl { i := 0, c := st.c }

theorem buildStr_eq_render (node : JsVal) :
    buildStr node = (render node).map (fun t => xmlDecl ++ t) := by
  rw [buildStr]
  exact build_eq_render { i := 0, c := none } node

theorem toList_mk (l : List Char) : (String.mk l).toList = l := rfl

theorem renderChildren_textRun (cs : List Char) :
    renderChildren (cs.map (fun c => JsVal.vStr (String.mk [c]))) = .ok (escAll cs) := by
  induction cs with
  | nil => rw [List.map_nil, renderChildren]; rfl
  | cons c r ih =>
    rw [List.map_cons, renderChildren, render_text (.vStr (String.mk [c])) rfl, ih]
    simp [escapeString, isNil, jsToString, toList_mk, escapeChars_single, escAll]

/-- C1: for every node on which `build` succeeds, the returned string is
exactly the fixed XML declaration followed immediately (no added
whitespace) by the rendered root; in particular `build` on
`{name:"root"}` returns the declaration followed by `<root/>`. -/
theorem c1_decl_then_root :
    (∀ (st : BuilderState) (node : JsVal) (s : List Char) (st' : BuilderState),
      build st node = .ok (s, st') →
      ∃ t, render node = .ok t ∧ s = xmlDecl ++ t) ∧
    buildStr (.vObj [("name", .vStr "root")]) = .ok (xmlDecl ++ "<root/>".toList) := by
  constructor
  · intro st node s st' h
    have hb := build_eq_render st node
    rw [h, except_map_ok] at hb
    symm at hb
    rw [except_map_eq_ok] at hb
    obtain ⟨t, ht, hs⟩ := hb
    exact ⟨t, ht, hs.symm⟩
  · rw [buildStr_eq_render, render_vObj]
    decide

/-- C1 witness: the universal part of `c1_decl_then_root` applied at the
concrete root node `{name:"root"}`. -/
theorem c1_witness :
    (build { i := 0, c := none } (.vObj [("name", .vStr "root")])
      = .ok (xmlDecl ++ "<root/>".toList, { i := 1, c := some '<' })) ∧
    (∃ t, render (.vObj [("name", .vStr "root")]) = .ok t ∧
      xmlDecl ++ "<root/>".toList = xmlDecl ++ t) :=
  have hp : build { i := 0, c := none } (.vObj [("name", .vStr "root")])
      = .ok (xmlDecl ++ "<root/>".toList, { i := 1, c := some '<' }) := by
    rw [build, buildNode_vObj]
    decide
  ⟨hp, c1_decl_then_root.1 _ _ _ _ hp⟩

/-- C2 counterexample: the error the code throws carries the message
`"XML node does not have name"`, not `"XML node missing name"` as the
claim states; witnessed by the nameless root object. -/
theorem c2_cex :
    buildStr (.vObj []) = .error "XML node does not have name" ∧
    "XML node does not have name" ≠ "XML node missing name" := by
  constructor
  · rw [buildStr_eq_render, render_vObj]
    decide
  · decide

/-- C2 amended: `build` fails if and only if some element node
encountered during the traversal has a falsy `name` (`hasBadNode`), the
single error message is `"XML node does not have name"`, and the error
aborts the whole call with no partial output (the `Except.error` result
carries no string). -/
theorem c2_error_iff (st : BuilderState) (node : JsVal) (e : String) :
    build st node = .error e ↔
      (hasBadNode node = true ∧ e = "XML node does not have name") := by
  have hb := build_eq_render st node
  have hr := render_error_spec node
  constructor
  · intro h
    rw [h, except_map_error] at hb
    symm at hb
    rw [except_map_eq_error] at hb
    exact ⟨hr.2.mpr ⟨e, hb⟩, hr.1 e hb⟩
  · rintro ⟨hbad, rfl⟩
    obtain ⟨e', he'⟩ := hr.2.mp hbad
    have hmsg := hr.1 e' he'
    subst hmsg
    rw [he', except_map_error] at hb
    rw [except_map_eq_error] at hb
    exact hb

/-- C3: a successfully built element with empty children is rendered as
the self-closed tag (opening text plus `/>`, nothing else); one with
non-empty children is rendered as the opening tag, `>`, the children
rendered recursively in sequence order, and the explicit closing tag —
never self-closed. -/
theorem c3_children_tags (fields : List (String × JsVal)) (xml : List Char)
    (st : BuilderState) (r : List Char) (st' : BuilderState)
    (h : buildNode (.vObj fields) xml st = .ok (r, st')) :
    (isEmpty (getField fields "children") = true →
      r = xml ++ openTag fields ++ "/>".toList) ∧
    (isEmpty (getField fields "children") = false →
      ∃ inner, renderChildren (childList (getField fields "children")) = .ok inner ∧
        r = xml ++ openTag fields ++ '>' :: inner ++
          "</".toList ++ jsToString (getField fields "name") ++ ['>']) := by
  rw [buildNode_vObj] at h
  by_cases hname : truthy (getField fields "name") = true
  · rw [if_pos hname] at h
    by_cases hemp : isEmpty (getField fields "children") = true
    · rw [if_pos hemp] at h
      simp only [Except.ok.injEq, Prod.mk.injEq] at h
      constructor
      · intro _
        exact h.1.symm
      · intro hfalse
        rw [hemp] at hfalse
        cases hfalse
    · rw [if_neg hemp] at h
      rw [Bool.not_eq_true] at hemp
      cases hbc : buildChildren (childList (getField fields "children"))
          (xml ++ openTag fields ++ ['>']) (probe st xml) with
      | error e =>
        rw [hbc] at h
        cases h
      | ok p =>
        obtain ⟨x3, s3⟩ := p
        rw [hbc] at h
        simp only [Except.ok.injEq, Prod.mk.injEq] at h
        have hbr := bridge_children (childList (getField fields "children"))
          (fun c _ xml' st'' => bridge c xml' st'')
          (xml ++ openTag fields ++ ['>']) (probe st xml)
        rw [hbc, except_map_ok] at hbr
        symm at hbr
        rw [except_map_eq_ok] at hbr
        obtain ⟨inner, hin, hx3⟩ := hbr
        constructor
        · intro htrue
          rw [hemp] at htrue
          cases htrue
        · intro _
          refine ⟨inner, hin, ?_⟩
          simp only at hx3
          rw [← h.1, ← hx3]
          simp [List.append_assoc]
  · rw [if_neg hname] at h
    cases h

/-- C3 witness: `c3_children_tags` applied at the concrete childless
element `{name:"r"}`. -/
theorem c3_witness :
    (buildNode (.vObj [("name", .vStr "r")]) [] { i := 0, c := none }
      = .ok ("<r/>".toList, { i := 1, c := none })) ∧
    ((isEmpty (getField [("name", JsVal.vStr "r")] "children") = true →
      "<r/>".toList = [] ++ openTag [("name", JsVal.vStr "r")] ++ "/>".toList) ∧
    (isEmpty (getField [("name", JsVal.vStr "r")] "children") = false →
      ∃ inner, renderChildren (childList (getField [("name", JsVal.vStr "r")] "children"))
          = .ok inner ∧
        "<r/>".toList = [] ++ openTag [("name", JsVal.vStr "r")] ++ '>' :: inner ++
          "</".toList ++ jsToString (getField [("name", JsVal.vStr "r")] "name") ++ ['>'])) :=
  have hp : buildNode (.vObj [("name", .vStr "r")]) [] { i := 0, c := none }
      = .ok ("<r/>".toList, { i := 1, c := none }) := by
    rw [buildNode_vObj]
    decide
  ⟨hp, c3_children_tags _ _ _ _ _ hp⟩

/-- C4: escaping any string value with `_escapeString` (whose
replacement chain equals `escapeChars`) and then XML-unescaping the
result reproduces the original string exactly. -/
theorem c4_roundtrip (s : String) :
    jsToString (escapeString (.vStr s)) = escapeChars s.toList ∧
    unescapeChars (escapeChars s.toList) = s.toList := by
  constructor
  · simp [escapeString, isNil, jsToString, toList_mk]
  · exact unescape_escapeChars s.toList

/-- C5 counterexample: a `null` text child renders as the literal word
`null`, not as empty content: `{name:"a", children:[null]}` builds to
`...<a>null</a>`, which differs from the `...<a></a>` the claim
predicts. -/
theorem c5_cex :
    buildStr (.vObj [("name", .vStr "a"), ("children", .vArr [.vNull])])
      = .ok (xmlDecl ++ "<a>null</a>".toList) ∧
    xmlDecl ++ "<a>null</a>".toList ≠ xmlDecl ++ "<a></a>".toList := by
  constructor
  · rw [buildStr_eq_render, render_vObj]
    rw [show childList (getField [("name", JsVal.vStr "a"),
      ("children", JsVal.vArr [JsVal.vNull])] "children") = [JsVal.vNull] from rfl]
    rw [renderChildren, render_text .vNull rfl, renderChildren]
    decide
  · decide

/-- C5 amended: a nil text child renders as the literal stringification
of the nil value — `null` appends the word `null` and `undefined`
appends the word `undefined` (the escape returns the nil unchanged and
the `+=` stringifies it). -/
theorem c5_amended (xml : List Char) (st : BuilderState) :
    (buildNode .vNull xml st).map Prod.fst = .ok (xml ++ "null".toList) ∧
    (buildNode .vUndef xml st).map Prod.fst = .ok (xml ++ "undefined".toList) := by
  rw [buildNode_text .vNull rfl, buildNode_text .vUndef rfl]
  constructor <;> simp [Except.map, escapeString, isNil, jsToString]

/-- C6 counterexample: a `null` attribute value is emitted as the
literal `x="null"`, not as `x=""`: `{name:"a", attributes:{x:null}}`
builds to `...<a x="null"/>`, which differs from the `...<a x=""/>` the
claim predicts. -/
theorem c6_cex :
    buildStr (.vObj [("name", .vStr "a"), ("attributes", .vObj [("x", .vNull)])])
      = .ok (xmlDecl ++ "<a x=\"null\"/>".toList) ∧
    xmlDecl ++ "<a x=\"null\"/>".toList ≠ xmlDecl ++ "<a x=\"\"/>".toList := by
  constructor
  · rw [buildStr_eq_render, render_vObj]
    decide
  · decide

/-- C6 amended: a nil attribute value still emits the attribute with its
key preserved, but its value is the literal word `null` (or
`undefined`), because the template literal stringifies the nil returned
unchanged by the escape. -/
theorem c6_amended (k : String) (xml : List Char) (st : BuilderState) :
    attrStep xml (k, .vNull)
      = xml ++ ' ' :: k.toList ++ '=' :: qm :: "null".toList ++ [qm] ∧
    attrStep xml (k, .vUndef)
      = xml ++ ' ' :: k.toList ++ '=' :: qm :: "undefined".toList ++ [qm] ∧
    (buildNode (.vObj [("name", .vStr "a"), ("attributes", .vObj [(k, .vNull)])])
        xml st).map Prod.fst
      = .ok (xml ++ '<' :: 'a' :: ' ' :: k.toList ++ '=' :: qm :: "null".toList ++
          qm :: "/>".toList) := by
  refine ⟨?_, ?_, ?_⟩
  · simp [attrStep, attrBlock, escapeString, isNil, jsToString]
  · simp [attrStep, attrBlock, escapeString, isNil, jsToString]
  · rw [buildNode_vObj]
    rw [if_pos (show truthy (getField [("name", JsVal.vStr "a"),
      ("attributes", JsVal.vObj [(k, JsVal.vNull)])] "name") = true from rfl)]
    rw [if_pos (show isEmpty (getField [("name", JsVal.vStr "a"),
      ("attributes", JsVal.vObj [(k, JsVal.vNull)])] "children") = true from rfl)]
    rw [show openTag [("name", JsVal.vStr "a"), ("attributes", JsVal.vObj [(k, JsVal.vNull)])]
      = '<' :: 'a' :: attrsConcat [(k, JsVal.vNull)] from rfl]
    rw [show attrsConcat [(k, JsVal.vNull)] = attrBlock (k, JsVal.vNull) ++ [] from rfl]
    simp [attrBlock, escapeString, isNil, jsToString, Except.map, List.append_assoc]

/-- C7 counterexample: applying the escape twice is not the same as
applying it once — on the string `&` one application yields `&amp;` and
a second yields `&amp;amp;`. -/
theorem c7_cex :
    jsToString (escapeString (escapeString (.vStr "&"))) = "&amp;amp;".toList ∧
    jsToString (escapeString (.vStr "&")) = "&amp;".toList ∧
    jsToString (escapeString (escapeString (.vStr "&")))
      ≠ jsToString (escapeString (.vStr "&")) := by
  refine ⟨by decide, by decide, by decide⟩

/-- C7 amended: within a single application the `&`-first ordering does
prevent re-escaping: one run of the five replacements equals an
independent per-character substitution, so entities inserted by later
passes are never re-escaped in that run.  (A second full application
does double-escape, as the counterexample shows.) -/
theorem c7_amended (l : List Char) : escapeChars l = escAll l :=
  escapeChars_eq_escAll l

/-- C8: `build` is deterministic and its result string is independent of
the instance state — the counter is reset at the start of each call and
the flatten probe only writes `_c`, so two calls on the same node, on
the same or different instances, return identical strings. -/
theorem c8_state_independent (node : JsVal) (st1 st2 : BuilderState) :
    (build st1 node).map Prod.fst = (build st2 node).map Prod.fst := by
  rw [build_eq_render, build_eq_render]

/-- C9: the element/text dispatch and the name requirement are
truthiness checks: any object with a falsy `name` field (absent, empty
string, 0, false, or nil are all falsy) makes `build` throw, and an
array is classified as an object whose `name` access yields `undefined`,
so it throws rather than rendering as text. -/
theorem c9_truthiness :
    (∀ fields xml st, truthy (getField fields "name") = false →
      buildNode (.vObj fields) xml st = .error "XML node does not have name") ∧
    (∀ xs xml st, isObject (.vArr xs) = true ∧
      buildNode (.vArr xs) xml st = .error "XML node does not have name") ∧
    truthy .vUndef = false ∧ truthy .vNull = false ∧
    truthy (.vStr "") = false ∧ truthy (.vNum 0) = false ∧
    truthy (.vBool false) = false ∧
    (∀ fields, isObject (.vObj fields) = true) := by
  refine ⟨?_, ?_, by decide, by decide, by decide, by decide, by decide, fun _ => rfl⟩
  · intro fields xml st h
    rw [buildNode_vObj, if_neg]
    simp [h]
  · intro xs xml st
    exact ⟨rfl, buildNode_vArr xs xml st⟩

/-- C9 witness: `c9_truthiness` applied at the concrete element whose
`name` is the empty string. -/
theorem c9_witness :
    truthy (getField [("name", JsVal.vStr "")] "name") = false ∧
    buildNode (.vObj [("name", .vStr "")]) [] { i := 0, c := none }
      = .error "XML node does not have name" :=
  have h : truthy (getField [("name", JsVal.vStr "")] "name") = false := by decide
  ⟨h, c9_truthiness.1 _ [] { i := 0, c := none } h⟩

/-- C10: when an element's `children` is a non-empty string `s`, `build`
does not fail: the element is rendered non-self-closed and the iteration
visits each character of `s` as a one-character text leaf, so the
element content is exactly the escape of `s`. -/
theorem c10_string_children (nm s : String) (hnm : nm ≠ "") (hs : s ≠ "")
    (xml : List Char) (st : BuilderState) :
    (buildNode (.vObj [("name", .vStr nm), ("children", .vStr s)]) xml st).map Prod.fst
      = .ok (xml ++ '<' :: nm.toList ++ '>' :: escapeChars s.toList ++
        "</".toList ++ nm.toList ++ ['>']) := by
  rw [bridge, render_vObj]
  have e1 : getField [("name", JsVal.vStr nm), ("children", JsVal.vStr s)] "name"
      = .vStr nm := rfl
  have e2 : getField [("name", JsVal.vStr nm), ("children", JsVal.vStr s)] "children"
      = .vStr s := rfl
  have hname : truthy (getField [("name", JsVal.vStr nm),
      ("children", JsVal.vStr s)] "name") = true := by
    rw [e1]
    simp [truthy, hnm]
  have hemp : ¬(isEmpty (getField [("name", JsVal.vStr nm),
      ("children", JsVal.vStr s)] "children") = true) := by
    rw [e2]
    simp [isEmpty, hs]
  rw [if_pos hname, if_neg hemp]
  rw [show childList (getField [("name", JsVal.vStr nm),
    ("children", JsVal.vStr s)] "children")
    = s.toList.map (fun c => JsVal.vStr (String.mk [c])) from by rw [e2, childList]]
  rw [renderChildren_textRun, escapeChars_eq_escAll]
  rw [show openTag [("name", JsVal.vStr nm), ("children", JsVal.vStr s)]
    = '<' :: nm.toList ++ [] from rfl]
  simp [e1, jsToString, Except.map, List.append_assoc]

/-- C10 witness: `c10_string_children` applied at the concrete element
`{name:"p", children:"a<b"}`. -/
theorem c10_witness :
    ("p" : String) ≠ "" ∧ ("a<b" : String) ≠ "" ∧
    (buildNode (.vObj [("name", .vStr "p"), ("children", .vStr "a<b")]) []
        { i := 0, c := none }).map Prod.fst
      = .ok ([] ++ '<' :: "p".toList ++ '>' :: escapeChars "a<b".toList ++
        "</".toList ++ "p".toList ++ ['>']) :=
  ⟨by decide, by decide,
    c10_string_children "p" "a<b" (by decide) (by decide) [] { i := 0, c := none }⟩

end XmlSpec
